import Mathlib

/-!
Verification of the market-data / signal-synthesis core of the trading
system (src/data_provider.py and src/advanced_analysis.py) against its
natural-language specification.

The Python code is shallowly embedded: DataFrame rows become lists of
`Candle` records over `ℚ`, the numpy RNG becomes an explicit oracle
(state-threaded draw function), datetimes become integer second counts,
and the non-total float operations (division, `timedelta.seconds`) are
modelled with their exact semantics spelled out at each use site.
-/

/-- Directions used by `_generate_signal` (src/advanced_analysis.py):
vote directions are the strings "شراء" (buy), "بيع" (sell), "حياد"
(neutral hold vote); the final fallback signal is "انتظار" (wait). -/
inductive TDir where
  | buy
  | sell
  | neutral
  | wait
deriving DecidableEq, Repr

/-- `np.mean` of a list of rationals (never applied to `[]` in the code:
the MA and RSI voters always cast). -/
def listMean (l : List ℚ) : ℚ := l.sum / l.length

/-- Moving-average voter of `_generate_signal` (lines 120-128):
`price > ma20 > ma50` → buy@70, `price < ma20 < ma50` → sell@70,
else hold@40.  The Python appends the direction and the confidence to two
parallel lists under one condition; the pair models that. -/
def maVote (price ma20 ma50 : ℚ) : TDir × ℚ :=
  if ma20 < price ∧ ma50 < ma20 then (TDir.buy, 70)
  else if price < ma20 ∧ ma20 < ma50 then (TDir.sell, 70)
  else (TDir.neutral, 40)

/-- RSI voter of `_generate_signal` (lines 131-139):
`rsi < 30` → buy@75, `rsi > 70` → sell@75, else hold@50. -/
def rsiVote (rsi : ℚ) : TDir × ℚ :=
  if rsi < 30 then (TDir.buy, 75)
  else if 70 < rsi then (TDir.sell, 75)
  else (TDir.neutral, 50)

/-- Support/resistance voter of `_generate_signal` (lines 141-150):
buy@80 when within 1% relative distance of support, else sell@80 when
within 1% of resistance, else it casts nothing at all. -/
def srVote (price support resistance : ℚ) : List (TDir × ℚ) :=
  if |price - support| / price < 1/100 then [(TDir.buy, 80)]
  else if |price - resistance| / price < 1/100 then [(TDir.sell, 80)]
  else []

/-- The per-call vote list of `_generate_signal`: MA vote, then RSI vote,
then whatever the support/resistance voter cast (the Python keeps the
directions and confidences in two parallel lists built in this order). -/
def castVotes (price ma20 ma50 rsi support resistance : ℚ) : List (TDir × ℚ) :=
  [maVote price ma20 ma50, rsiVote rsi] ++ srVote price support resistance

/-- `_generate_signal` (src/advanced_analysis.py lines 113-166), final
aggregation: counts of buy and sell among `signals`, majority wins, the
confidence is the mean over the zip of the parallel lists restricted to
the winning direction (a tie takes the mean of all confidences), and the
returned confidence is `min(95, confidence)`. -/
def _generate_signal (price ma20 ma50 rsi support resistance : ℚ) : TDir × ℚ :=
  let votes := castVotes price ma20 ma50 rsi support resistance
  let signals := votes.map Prod.fst
  let confidences := votes.map Prod.snd
  let buy_signals := signals.count TDir.buy
  let sell_signals := signals.count TDir.sell
  if sell_signals < buy_signals then
    (TDir.buy, min 95 (listMean
      (((signals.zip confidences).filter (fun sc => sc.1 = TDir.buy)).map Prod.snd)))
  else if buy_signals < sell_signals then
    (TDir.sell, min 95 (listMean
      (((signals.zip confidences).filter (fun sc => sc.1 = TDir.sell)).map Prod.snd)))
  else
    (TDir.wait, min 95 (listMean confidences))

/-- Modelled from the spec's words (§4.3 step 8), for comparison with
`_generate_signal`: final direction is the strict majority of cast buy
votes vs cast sell votes (abstentions excluded), a tie yields wait; the
confidence is the mean of the votes agreeing with the final direction
(for ties, the mean of all cast confidences), clamped to at most 95. -/
def signalSpec (votes : List (TDir × ℚ)) : TDir × ℚ :=
  let b := (votes.filter (fun v => v.1 = TDir.buy)).length
  let s := (votes.filter (fun v => v.1 = TDir.sell)).length
  let dir := if s < b then TDir.buy else if b < s then TDir.sell else TDir.wait
  let conf :=
    if dir = TDir.wait then listMean (votes.map Prod.snd)
    else listMean ((votes.filter (fun v => v.1 = dir)).map Prod.snd)
  (dir, min 95 conf)

/-- The short-term/long-term trend labels of `_determine_trend`
(src/advanced_analysis.py): "صاعد" (up), "هابط" (down), "جانبي"
(sideways). -/
inductive TrendDir where
  | up
  | down
  | sideways
deriving DecidableEq, Repr

/-- Short-term trend of `_determine_trend` (line 96): up iff the last
close is above MA20, else down. -/
def short_trend (price ma20 : ℚ) : TrendDir :=
  if ma20 < price then TrendDir.up else TrendDir.down

/-- Long-term trend of `_determine_trend` (line 99): up if
`ma20 > ma50 > ma200`, down if `ma20 < ma50 < ma200`, else sideways. -/
def long_trend (ma20 ma50 ma200 : ℚ) : TrendDir :=
  if ma50 < ma20 ∧ ma200 < ma50 then TrendDir.up
  else if ma20 < ma50 ∧ ma50 < ma200 then TrendDir.down
  else TrendDir.sideways

/-- `_determine_trend` (src/advanced_analysis.py lines 91-111): the
reported trend is the literal pairing of short- and long-term labels
(the Python formats them into one string), and the strength is 85 when
they agree, 50 when the long-term label is sideways, 30 otherwise. -/
def _determine_trend (price ma20 ma50 ma200 : ℚ) : (TrendDir × TrendDir) × ℚ :=
  let st := short_trend price ma20
  let lt := long_trend ma20 ma50 ma200
  let strength : ℚ := if st = lt then 85 else if lt = TrendDir.sideways then 50 else 30
  ((st, lt), strength)

/-- `prices.diff()` of `_calculate_rsi` followed by the `where` clamp:
the first difference is NaN in pandas, and `delta.where(delta > 0, 0)`
(resp. the loss side) turns that NaN into 0, so position 0 contributes a
zero gain and a zero loss; every later position contributes the actual
difference. -/
def pyDelta (prices : List ℚ) (i : ℕ) : ℚ :=
  if i = 0 then 0 else prices.getD i 0 - prices.getD (i - 1) 0

/-- Per-position gain of `_calculate_rsi`: `delta.where(delta > 0, 0)`. -/
def gainAt (prices : List ℚ) (i : ℕ) : ℚ := max (pyDelta prices i) 0

/-- Per-position loss of `_calculate_rsi`: `(-delta).where(delta < 0, 0)`
written as a clamp. -/
def lossAt (prices : List ℚ) (i : ℕ) : ℚ := max (-(pyDelta prices i)) 0

/-- `gain.rolling(window=14).mean()` at position `i` (defined for
`i ≥ 13`): the mean of the 14 gains at positions `i-13 .. i`. -/
def meanGain (prices : List ℚ) (i : ℕ) : ℚ :=
  listMean ((List.range 14).map (fun k => gainAt prices (i - 13 + k)))

/-- `loss.rolling(window=14).mean()` at position `i`. -/
def meanLoss (prices : List ℚ) (i : ℕ) : ℚ :=
  listMean ((List.range 14).map (fun k => lossAt prices (i - 13 + k)))

/-- `_calculate_rsi` (src/advanced_analysis.py lines 73-80) at one
position of the price series.  `rs = gain/loss` and
`rsi = 100 - 100/(1+rs)` follow pandas float semantics, spelled out:
a positive mean loss gives the finite formula; a zero mean loss with a
positive mean gain gives `rs = +∞` hence `rsi = 100`; a zero mean loss
with a zero mean gain gives `rs = 0/0 = NaN` hence `rsi = NaN`, modelled
as `none`.  Positions before the window fills (or past the end) are NaN
in pandas and are `none` here as well. -/
def rsiAt (prices : List ℚ) (i : ℕ) : Option ℚ :=
  if 13 ≤ i ∧ i < prices.length then
    if 0 < meanLoss prices i then
      some (100 - 100 / (1 + meanGain prices i / meanLoss prices i))
    else if 0 < meanGain prices i then some 100
    else none
  else none

/-- The constant price series of twenty 1s: prices never move, so every
window has zero mean gain and zero mean loss. -/
def constSeries : List ℚ := List.replicate 20 1

/-- The strictly increasing price series 0, 1, ..., 15: every delta is a
gain of 1, so the mean loss over any full window is 0 and the RSI is
defined and equal to 100. -/
def incSeries : List ℚ := List.map (fun n : ℕ => (n:ℚ)) (List.range 16)

/-- The fields of an Analysis Result (the dict built by `analyze_symbol`,
src/advanced_analysis.py lines 45-60) that the history operations read:
the symbol, the final signal and its confidence.  The remaining fields
(prices, indicators, timestamp) ride along unchanged and are omitted. -/
structure Analysis where
  symbol : String
  signal : TDir
  confidence : ℚ
deriving DecidableEq, Repr

/-- The history-admission tail of `analyze_symbol`
(src/advanced_analysis.py lines 62-67): the analysis is appended to
`signals_history` only when `confidence > 60`, and the analysis itself
is returned in every case.  The Python mutates `self.signals_history`;
the pair returns the new history alongside the returned value. -/
def analyze_record (signals_history : List Analysis) (analysis : Analysis) :
    List Analysis × Analysis :=
  if 60 < analysis.confidence then (signals_history ++ [analysis], analysis)
  else (signals_history, analysis)

/-- The symbol filter of `get_signal_history`
(src/advanced_analysis.py lines 278-281).  Python's `if symbol:` is
truthiness: both `None` and the empty string leave the history
unfiltered. -/
def filtered_history (signals_history : List Analysis) (symbol : Option String) :
    List Analysis :=
  match symbol with
  | none => signals_history
  | some s =>
      if s = "" then signals_history
      else signals_history.filter (fun a => a.symbol = s)

/-- Python's `history[-limit:]` for a natural `limit`: `-0` is `0`, so
`limit = 0` slices the whole list from the start; a positive `limit`
takes the last `min limit length` entries (negative start indices clamp
to 0). -/
def pySliceLast (l : List Analysis) (limit : ℕ) : List Analysis :=
  if limit = 0 then l else l.drop (l.length - limit)

/-- `get_signal_history` (src/advanced_analysis.py lines 276-283):
filter by symbol, then `history[-limit:] if history else []`. -/
def get_signal_history (signals_history : List Analysis) (symbol : Option String)
    (limit : ℕ) : List Analysis :=
  let history := filtered_history signals_history symbol
  if history.isEmpty then [] else pySliceLast history limit

/-- One OHLCV row of the DataFrames of src/data_provider.py.  Fields are
named after the canonical column names; `time` is the row's timestamp in
seconds.  The synthetic generator always fills every field, so the
column-existence check and `dropna` of `_clean_data` are identities on
series built from these total records. -/
structure Candle where
  time : ℤ
  Open : ℚ
  High : ℚ
  Low : ℚ
  Close : ℚ
  Volume : ℚ
deriving DecidableEq, Repr

/-- `Series.quantile(q)` of pandas on an already sorted list (default
linear interpolation): with `h = q*(n-1)`, `lo = floor h`, the value is
`s[lo] + (h - lo) * (s[lo+1] - s[lo])` (the second point defaults to the
first when `lo+1` is out of range, which only happens when the
fractional part is zero). -/
def quantileSorted (s : List ℚ) (q : ℚ) : ℚ :=
  if s.length = 0 then 0
  else
    s.getD (q * ((s.length : ℚ) - 1)).floor.toNat 0 +
      (q * ((s.length : ℚ) - 1) - ((q * ((s.length : ℚ) - 1)).floor.toNat : ℚ)) *
        (s.getD ((q * ((s.length : ℚ) - 1)).floor.toNat + 1)
            (s.getD (q * ((s.length : ℚ) - 1)).floor.toNat 0) -
          s.getD (q * ((s.length : ℚ) - 1)).floor.toNat 0)

/-- `data[col].quantile(q)`: sort the column values, then interpolate. -/
def quantileQ (l : List ℚ) (q : ℚ) : ℚ :=
  quantileSorted (List.insertionSort (· ≤ ·) l) q

/-- One iteration of the outlier loop of `_clean_data`
(src/data_provider.py lines 517-524): when more than 10 rows remain,
compute the 5th/95th percentiles of the column, derive `IQR` and keep
the rows inside `[Q1 - 3*IQR, Q3 + 3*IQR]` (inclusive); otherwise leave
the rows untouched. -/
def _clean_filter_col (col : Candle → ℚ) (rows : List Candle) : List Candle :=
  if 10 < rows.length then
    let Q1 := quantileQ (rows.map col) (1/20)
    let Q3 := quantileQ (rows.map col) (19/20)
    let IQR := Q3 - Q1
    rows.filter (fun r => decide (Q1 - 3 * IQR ≤ col r) && decide (col r ≤ Q3 + 3 * IQR))
  else rows

/-- `_clean_data` (src/data_provider.py lines 499-526) on a list of
total OHLCV records: the column-existence check and `dropna` are
identities (every field is present), and the outlier filter runs over
the required columns in order Open, High, Low, Close. -/
def _clean_data (rows : List Candle) : List Candle :=
  _clean_filter_col (fun c => c.Close)
    (_clean_filter_col (fun c => c.Low)
      (_clean_filter_col (fun c => c.High)
        (_clean_filter_col (fun c => c.Open) rows)))

/-- The numpy global RNG, abstracted: `seed` is `np.random.seed` (it
replaces the global state with one computed from the seed value alone),
`draw` consumes the state and yields the realized sample of the next
call together with the successor state.  Scale parameters of
`np.random.normal(0, σ)` are applied outside the draw as `σ · g`. -/
structure Rng where
  seed : ℕ → ℕ
  draw : ℕ → ℚ × ℕ

/-- `np.random.normal(μ, σ, n)`: a list of `n` sequential raw draws
together with the state left behind. -/
def draw_list (rng : Rng) : ℕ → ℕ → List ℚ × ℕ
  | st, 0 => ([], st)
  | st, n + 1 =>
    ((rng.draw st).1 :: (draw_list rng (rng.draw st).2 n).1,
      (draw_list rng (rng.draw st).2 n).2)

/-- The base prices dict of `_get_dynamic_default_data`
(src/data_provider.py lines 249-254), with `.get(symbol, 1.0)`. -/
def base_prices (symbol : String) : ℚ :=
  if symbol = "EURUSD" then 1.0850
  else if symbol = "GBPUSD" then 1.2650
  else if symbol = "USDJPY" then 149.50
  else if symbol = "USDCHF" then 0.8850
  else if symbol = "USDCAD" then 1.3600
  else if symbol = "AUDUSD" then 0.6550
  else if symbol = "NZDUSD" then 0.6100
  else if symbol = "XAUUSD" then 1985.50
  else if symbol = "XAGUSD" then 23.25
  else if symbol = "USOIL" then 75.80
  else if symbol = "NAS100" then 16050.0
  else if symbol = "SPX500" then 4550.0
  else if symbol = "DJI" then 35000.0
  else 1.0

/-- `prices = base_price * (1 + returns).cumprod()` at index `i`. -/
def price_path (base : ℚ) (returns : List ℚ) (i : ℕ) : ℚ :=
  base * (((returns.take (i + 1)).map (fun r => 1 + r)).prod)

/-- One candle of the synthetic loop (src/data_provider.py lines
267-288): `volatility = 0.002 * (1 + 0.5*sin(i/50))`; the High/Low
envelopes take `price * (1 ± |normal(0, volatility)|)`, the close takes
`price * (1 + normal(0, volatility*0.5))`, and then the code enforces
`High = max(Open, Close, High)` and `Low = min(Open, Close, Low)`.
Volume is `1000000 * (0.8 + 0.4*sin(i/20) + 0.3*random())`.  `g1, g2,
g3` are the raw standard draws behind the three normal calls and `u`
the raw uniform draw; `sinQ` stands for `np.sin`. -/
def mk_candle (now : ℤ) (sinQ : ℚ → ℚ) (i : ℕ) (price g1 g2 g3 u : ℚ) : Candle :=
  let volatility := 1/500 * (1 + 1/2 * sinQ ((i : ℚ) / 50))
  let open_price := price
  let high_price := price * (1 + |volatility * g1|)
  let low_price := price * (1 - |volatility * g2|)
  let close_price := price * (1 + volatility * (1/2) * g3)
  { time := now - 3600 * (499 - (i : ℤ))
    Open := open_price
    High := max open_price (max close_price high_price)
    Low := min open_price (min close_price low_price)
    Close := close_price
    Volume := 1000000 * (4/5 + 2/5 * sinQ ((i : ℚ) / 20) + 3/10 * u) }

/-- The candle loop of `_get_dynamic_default_data`: at index `i` it
draws the high, low, close and volume samples in that order (threading
the RNG state through the four draws) and recurses on the next index. -/
def gen_candles (rng : Rng) (sinQ : ℚ → ℚ) (base : ℚ) (returns : List ℚ)
    (now : ℤ) : ℕ → ℕ → ℕ → List Candle
  | _, _, 0 => []
  | i, st, count + 1 =>
    mk_candle now sinQ i (price_path base returns i)
      (rng.draw st).1
      (rng.draw (rng.draw st).2).1
      (rng.draw (rng.draw (rng.draw st).2).2).1
      (rng.draw (rng.draw (rng.draw (rng.draw st).2).2).2).1 ::
      gen_candles rng sinQ base returns now (i + 1)
        (rng.draw (rng.draw (rng.draw (rng.draw st).2).2).2).2 count

/-- `_get_dynamic_default_data` (src/data_provider.py lines 245-296):
seed the global RNG from `hash(symbol) % 10000` (discarding whatever
state `_ambient` it held), draw the 500 per-step returns
`normal(0.0001, 0.005)`, build the 500 hourly candles ending at `now`,
and clean the result.  `pyHash` is the process's string hash. -/
def _get_dynamic_default_data (rng : Rng) (pyHash : String → ℕ) (sinQ : ℚ → ℚ)
    (_ambient : ℕ) (symbol : String) (now : ℤ) : List Candle :=
  _clean_data
    (gen_candles rng sinQ (base_prices symbol)
      ((draw_list rng (rng.seed (pyHash symbol % 10000)) 500).1.map
        (fun g => 1/10000 + 1/200 * g))
      now 0 (draw_list rng (rng.seed (pyHash symbol % 10000)) 500).2 500)

/-- The data sources of the provider (src/data_provider.py line 18):
`self.data_sources = ['mt5', 'twelvedata']`. -/
inductive Source where
  | mt5
  | twelvedata
deriving DecidableEq, Repr

/-- The `DataProvider` state that `get_symbol_data` reads: the declared
source list, the startup Source Health Map (`self.source_status`), the
adapters (as oracles returning the normalized frame, `none` for an
exception or a `None` return), the indicator-engine flag and attacher,
the synthetic generator (`_get_dynamic_default_data`, as the oracle this
orchestration calls) and the cache timeout (600 s). -/
structure Provider where
  data_sources : List Source
  source_status : Source → Bool
  fetchSource : Source → String → String → String → Option (List Candle)
  ta_available : Bool
  add_technical_indicators : List Candle → List Candle
  dynamicDefault : String → Option (List Candle)
  cache_timeout : ℕ

/-- `self._cache`: a dict keyed by the formatted string
`f"{symbol}_{period}_{interval}"`, holding `(fetched-at, series)`. -/
def Cache : Type := String → Option (ℕ × List Candle)

/-- The cache key `f"{symbol}_{period}_{interval}"`. -/
def cacheKey (symbol period interval : String) : String :=
  symbol ++ "_" ++ period ++ "_" ++ interval

/-- Store `(now, data)` under `key` (dict assignment). -/
def cacheInsert (cache : Cache) (key : String) (now : ℕ) (data : List Candle) :
    Cache :=
  fun k => if k = key then some (now, data) else cache k

/-- Python's `(datetime.now() - cached_time).seconds` for a nonnegative
delta of `d` whole seconds: the seconds component of the timedelta,
i.e. `d mod 86400` — the days are discarded. -/
def tdSeconds (d : ℕ) : ℕ := d % 86400

/-- The source loop of `get_symbol_data` (src/data_provider.py lines
204-226): try each working source in order; a raised exception or a
`None`/empty frame moves on to the next source; the first non-empty
frame wins. -/
def tryWorkingSources (p : Provider) (sources : List Source)
    (symbol period interval : String) : Option (List Candle) :=
  match sources with
  | [] => none
  | src :: rest =>
    match p.fetchSource src symbol period interval with
    | some data =>
      if data.isEmpty then tryWorkingSources p rest symbol period interval
      else some data
    | none => tryWorkingSources p rest symbol period interval

/-- `get_symbol_data` (src/data_provider.py lines 183-243), returning
the result together with the cache left behind.  Flow: serve a cache
entry younger than `cache_timeout` (per `timedelta.seconds`); otherwise
filter the sources by the health map — if none is healthy return
`self._get_dynamic_default_data(symbol)` directly; otherwise try the
working sources, and on first success attach indicators (when
available) and cache; if all fail, generate the synthetic series,
attach indicators (when available), cache it and return it; `none` only
if even the generator returns `None`. -/
def get_symbol_data (p : Provider) (cache : Cache) (now : ℕ)
    (symbol period interval : String) : Option (List Candle) × Cache :=
  match cache (cacheKey symbol period interval) with
  | some (cached_time, data) =>
    if tdSeconds (now - cached_time) < p.cache_timeout then (some data, cache)
    else get_symbol_data_fetch p cache now symbol period interval
  | none => get_symbol_data_fetch p cache now symbol period interval
where
  /-- The body below the cache check. -/
  get_symbol_data_fetch (p : Provider) (cache : Cache) (now : ℕ)
      (symbol period interval : String) : Option (List Candle) × Cache :=
    let working_sources := p.data_sources.filter p.source_status
    if working_sources.isEmpty then (p.dynamicDefault symbol, cache)
    else
      match tryWorkingSources p working_sources symbol period interval with
      | some data =>
        let data2 := if p.ta_available then p.add_technical_indicators data else data
        (some data2, cacheInsert cache (cacheKey symbol period interval) now data2)
      | none =>
        match p.dynamicDefault symbol with
        | some d =>
          let d2 := if p.ta_available then p.add_technical_indicators d else d
          (some d2, cacheInsert cache (cacheKey symbol period interval) now d2)
        | none => (none, cache)

/-- A provider with both sources marked unhealthy, an indicator engine
that visibly changes the series, and a one-candle synthetic series. -/
def unhealthyProvider : Provider where
  data_sources := [Source.mt5, Source.twelvedata]
  source_status := fun _ => false
  fetchSource := fun _ _ _ _ => none
  ta_available := true
  add_technical_indicators := fun s => s ++ [⟨1, 2, 3, 1, 2, 5⟩]
  dynamicDefault := fun _ => some [⟨0, 1, 1, 1, 1, 1⟩]
  cache_timeout := 600

/-- The empty cache. -/
def emptyCache : Cache := fun _ => none

/-- A cache holding, under the EURUSD key, a one-candle series stored at
second 0. -/
def dayOldCache : Cache :=
  fun k => if k = cacheKey "EURUSD" "3mo" "4h" then some (0, [⟨0, 1, 1, 1, 1, 1⟩])
    else none

/-- A provider whose sources are all healthy and whose first adapter
succeeds with a fresh one-candle series different from the cached one;
the indicator engine appends a marker candle and the synthetic series is
different again.  Every non-cache path of `get_symbol_data` over this
provider returns a series other than the cached one and overwrites the
cache entry with the call's timestamp. -/
def staleServingProvider : Provider where
  data_sources := [Source.mt5, Source.twelvedata]
  source_status := fun _ => true
  fetchSource := fun _ _ _ _ => some [⟨7, 2, 2, 2, 2, 2⟩]
  ta_available := true
  add_technical_indicators := fun s => s ++ [⟨8, 3, 3, 3, 3, 3⟩]
  dynamicDefault := fun _ => some [⟨9, 4, 4, 4, 4, 4⟩]
  cache_timeout := 600

/-- Counting a direction among the first components of a vote list equals
the length of the list filtered to that direction. -/
theorem count_fst_eq_length_filter (l : List (TDir × ℚ)) (d : TDir) :
    (l.map Prod.fst).count d = (l.filter (fun v => v.1 = d)).length := by
  induction l with
  | nil => rfl
  | cons x xs ih =>
    by_cases h : x.1 = d
    · simp [List.count_cons, List.filter_cons, h, ih]
    · simp [List.count_cons, List.filter_cons, h, ih]

/-- Zipping the two parallel projection lists of a vote list recovers it. -/
theorem zip_fst_snd (l : List (TDir × ℚ)) :
    (l.map Prod.fst).zip (l.map Prod.snd) = l := by
  induction l with
  | nil => rfl
  | cons x xs ih => simp [ih]

/-- Claim C3: the final direction of `_generate_signal` is the strict
majority of cast buy vs sell votes with abstentions excluded; a tie
yields wait with confidence the mean of all cast confidences; a non-tie
yields the mean confidence of the agreeing votes; the confidence is
clamped to 95 — i.e. `_generate_signal` agrees with the spec-worded
aggregation on every input — and on price=99, MA20=101, MA50=102,
RSI=72, support=90, resistance=99.5 it returns a sell at confidence
mean(70,75,80) = 75. -/
theorem generate_signal_majority_mean_clamp :
    (∀ price ma20 ma50 rsi support resistance : ℚ,
      _generate_signal price ma20 ma50 rsi support resistance =
        signalSpec (castVotes price ma20 ma50 rsi support resistance)) ∧
    _generate_signal 99 101 102 72 90 (199/2) = (TDir.sell, 75) := by
  constructor
  · intro price ma20 ma50 rsi support resistance
    simp only [_generate_signal, signalSpec, zip_fst_snd, count_fst_eq_length_filter]
    split_ifs <;> simp_all
  · have e1 : |(99:ℚ) - 90| = 9 := by
      rw [show (99:ℚ) - 90 = 9 by norm_num]; exact abs_of_nonneg (by norm_num)
    have e2 : |(99:ℚ) - 199/2| = 1/2 := by
      rw [show (99:ℚ) - 199/2 = -(1/2) by norm_num, abs_neg]
      exact abs_of_nonneg (by norm_num)
    have e3 : |(1:ℚ)/2| = 1/2 := abs_of_nonneg (by norm_num)
    norm_num [_generate_signal, castVotes, maVote, rsiVote, srVote, listMean,
      e1, e2, e3, List.count_cons, List.count_nil]
    decide

/-- Claim C6: the trend strength returned by `_determine_trend` is
exactly 85 when the short- and long-term labels agree, exactly 50 when
the long-term label is sideways, exactly 30 otherwise, and is therefore
always one of 30, 50, 85. -/
theorem determine_trend_strength_discrete :
    ∀ price ma20 ma50 ma200 : ℚ,
      ((_determine_trend price ma20 ma50 ma200).2 = 85 ↔
        short_trend price ma20 = long_trend ma20 ma50 ma200) ∧
      ((_determine_trend price ma20 ma50 ma200).2 = 50 ↔
        long_trend ma20 ma50 ma200 = TrendDir.sideways) ∧
      ((_determine_trend price ma20 ma50 ma200).2 = 30 ↔
        (short_trend price ma20 ≠ long_trend ma20 ma50 ma200 ∧
          long_trend ma20 ma50 ma200 ≠ TrendDir.sideways)) ∧
      ((_determine_trend price ma20 ma50 ma200).2 = 30 ∨
        (_determine_trend price ma20 ma50 ma200).2 = 50 ∨
        (_determine_trend price ma20 ma50 ma200).2 = 85) := by
  intro price ma20 ma50 ma200
  have hst : short_trend price ma20 ≠ TrendDir.sideways := by
    unfold short_trend; split_ifs <;> simp
  simp only [_determine_trend]
  split_ifs with h1 h2 <;> norm_num <;> simp_all

/-- Claim C10: whenever the price is within 1% relative distance of both
the support and the resistance, the support/resistance voter casts
exactly one buy vote at confidence 80 (support proximity takes
precedence; no sell vote, no double vote). -/
theorem sr_vote_support_precedence
    (price support resistance : ℚ)
    (hs : |price - support| / price < 1/100)
    (_hr : |price - resistance| / price < 1/100) :
    srVote price support resistance = [(TDir.buy, 80)] := by
  unfold srVote
  rw [if_pos hs]

/-- Witness for C10 at price=1000, support=996, resistance=1004: both
relative distances are 0.004 < 0.01 and the voter casts a single buy@80. -/
theorem sr_vote_support_precedence_at_1000 :
    srVote 1000 996 1004 = [(TDir.buy, 80)] :=
  sr_vote_support_precedence 1000 996 1004
    (by rw [show (1000:ℚ) - 996 = 4 by norm_num]; norm_num)
    (by rw [show (1000:ℚ) - 1004 = -4 by norm_num, abs_neg]; norm_num)

/-- The mean of a list of nonnegative rationals is nonnegative. -/
theorem listMean_nonneg (l : List ℚ) (h : ∀ x ∈ l, 0 ≤ x) : 0 ≤ listMean l := by
  unfold listMean
  apply div_nonneg (List.sum_nonneg h)
  exact_mod_cast Nat.zero_le _

/-- The rolling mean gain is nonnegative. -/
theorem meanGain_nonneg (prices : List ℚ) (i : ℕ) : 0 ≤ meanGain prices i := by
  apply listMean_nonneg
  intro x hx
  simp only [List.mem_map] at hx
  obtain ⟨k, _, rfl⟩ := hx
  exact le_max_right _ _

/-- Every in-range position of the constant series holds the value 1. -/
theorem constSeries_getD (j : ℕ) (hj : j < 20) : constSeries.getD j 0 = 1 := by
  rw [constSeries, List.getD_eq_getElem _ _ (by rw [List.length_replicate]; exact hj)]
  exact List.getElem_replicate ..

/-- On the constant series every in-range pandas delta is 0 (the first
one because the `where` clamp replaces the NaN diff by 0). -/
theorem constSeries_pyDelta (k : ℕ) (hk : k ≤ 19) : pyDelta constSeries k = 0 := by
  unfold pyDelta
  by_cases hk0 : k = 0
  · rw [if_pos hk0]
  · rw [if_neg hk0, constSeries_getD k (by omega), constSeries_getD (k - 1) (by omega)]
    norm_num

/-- Claim C5 (counterexample to the claim as stated): on the constant
price series of twenty 1s, position 19 has a full 14-sample window (it
is an evaluated position), the mean gain and the mean loss are both 0,
so `rs = 0/0` is NaN and the computed RSI is NaN — not a value in
[0, 100], and not 100 despite the mean loss being 0. -/
theorem rsi_nan_on_constant_series :
    (13 ≤ 19 ∧ 19 < constSeries.length) ∧ rsiAt constSeries 19 = none := by
  have hlen : constSeries.length = 20 := by rw [constSeries, List.length_replicate]
  refine ⟨⟨by norm_num, by rw [hlen]; norm_num⟩, ?_⟩
  have hg : meanGain constSeries 19 = 0 := by
    unfold meanGain gainAt listMean
    rw [List.sum_eq_zero, zero_div]
    intro x hx
    rw [List.mem_map] at hx
    obtain ⟨k, hk, rfl⟩ := hx
    rw [List.mem_range] at hk
    rw [constSeries_pyDelta (19 - 13 + k) (by omega)]
    norm_num
  have hl : meanLoss constSeries 19 = 0 := by
    unfold meanLoss lossAt listMean
    rw [List.sum_eq_zero, zero_div]
    intro x hx
    rw [List.mem_map] at hx
    obtain ⟨k, hk, rfl⟩ := hx
    rw [List.mem_range] at hk
    rw [constSeries_pyDelta (19 - 13 + k) (by omega)]
    norm_num
  unfold rsiAt
  rw [if_pos ⟨by norm_num, by rw [hlen]; norm_num⟩, hg, hl]
  norm_num

/-- Claim C5 (amended): whenever `_calculate_rsi` yields a defined
(non-NaN) value it lies in [0, 100], and a zero mean loss (with defined
result) forces the value 100; the NaN case arises exactly when both the
mean gain and the mean loss over the window are zero, as on a constant
window. -/
theorem rsi_defined_bounds (prices : List ℚ) (i : ℕ) (v : ℚ)
    (h : rsiAt prices i = some v) :
    0 ≤ v ∧ v ≤ 100 ∧ (meanLoss prices i = 0 → v = 100) := by
  unfold rsiAt at h
  by_cases hil : 13 ≤ i ∧ i < prices.length
  · simp only [hil, and_self, if_true] at h
    by_cases hl : 0 < meanLoss prices i
    · rw [if_pos hl] at h
      have hg : 0 ≤ meanGain prices i := meanGain_nonneg prices i
      have hrs : 0 ≤ meanGain prices i / meanLoss prices i := div_nonneg hg hl.le
      have h1 : (1:ℚ) ≤ 1 + meanGain prices i / meanLoss prices i := by linarith
      have hpos : (0:ℚ) < 1 + meanGain prices i / meanLoss prices i := by linarith
      have hfrac_pos : 0 < 100 / (1 + meanGain prices i / meanLoss prices i) :=
        div_pos (by norm_num) hpos
      have hfrac_le : 100 / (1 + meanGain prices i / meanLoss prices i) ≤ 100 := by
        rw [div_le_iff₀ hpos]; nlinarith
      obtain rfl : 100 - 100 / (1 + meanGain prices i / meanLoss prices i) = v :=
        Option.some.injEq _ _ ▸ h
      refine ⟨by linarith, by linarith, ?_⟩
      intro h0
      rw [h0] at hl
      exact absurd hl (lt_irrefl 0)
    · rw [if_neg hl] at h
      by_cases hg : 0 < meanGain prices i
      · rw [if_pos hg] at h
        obtain rfl : (100:ℚ) = v := Option.some.injEq _ _ ▸ h
        exact ⟨by norm_num, by norm_num, fun _ => rfl⟩
      · rw [if_neg hg] at h
        exact absurd h (by simp)
  · simp only [hil, if_false] at h
    exact absurd h (by simp)

/-- Position `j < 16` of the increasing series holds the value `j`. -/
theorem incSeries_getD (j : ℕ) (hj : j < 16) : incSeries.getD j 0 = (j:ℚ) := by
  rw [incSeries,
    List.getD_eq_getElem _ _ (by rw [List.length_map, List.length_range]; exact hj),
    List.getElem_map, List.getElem_range]

/-- On the increasing series every delta at positions 1..15 is 1. -/
theorem incSeries_pyDelta (k : ℕ) (h1 : 1 ≤ k) (h15 : k ≤ 15) :
    pyDelta incSeries k = 1 := by
  unfold pyDelta
  rw [if_neg (by omega), incSeries_getD k (by omega), incSeries_getD (k - 1) (by omega)]
  rw [Nat.cast_sub h1]
  push_cast
  ring

/-- Witness for C5 (amended) on the strictly increasing series
0,1,...,15 at position 15: every delta in the window is a gain, the mean
loss is 0, and the amended theorem applied there gives the bounds and the
value 100. -/
theorem rsi_defined_bounds_at_increasing :
    0 ≤ (100:ℚ) ∧ (100:ℚ) ≤ 100 ∧ (meanLoss incSeries 15 = 0 → (100:ℚ) = 100) := by
  apply rsi_defined_bounds incSeries 15 100
  have hlen : incSeries.length = 16 := by
    rw [incSeries, List.length_map, List.length_range]
  have hsum1 : (List.map (fun _ : ℕ => (1:ℚ)) (List.range 14)).sum = 14 := by
    simp
    norm_num
  have hg : meanGain incSeries 15 = 1 := by
    unfold meanGain gainAt listMean
    rw [List.map_congr_left (l := List.range 14)
      (f := fun k => max (pyDelta incSeries (15 - 13 + k)) 0)
      (g := fun _ : ℕ => (1:ℚ)) ?_]
    · rw [hsum1, List.length_map, List.length_range]
      norm_num
    · intro k hk
      rw [List.mem_range] at hk
      show max (pyDelta incSeries (15 - 13 + k)) 0 = (1:ℚ)
      rw [incSeries_pyDelta (15 - 13 + k) (by omega) (by omega)]
      norm_num
  have hl : meanLoss incSeries 15 = 0 := by
    unfold meanLoss lossAt listMean
    rw [List.sum_eq_zero, zero_div]
    intro x hx
    rw [List.mem_map] at hx
    obtain ⟨k, hk, rfl⟩ := hx
    rw [List.mem_range] at hk
    rw [incSeries_pyDelta (15 - 13 + k) (by omega) (by omega)]
    norm_num
  unfold rsiAt
  rw [if_pos ⟨by norm_num, by rw [hlen]; norm_num⟩, hg, hl]
  norm_num

/-- Claim C7: an analysis is appended to the signal history exactly when
its confidence is strictly greater than 60 — confidence 60 is not
appended, confidence 61 is — and the analysis is returned to the caller
in either case. -/
theorem analyze_record_strict_admission :
    ∀ (h : List Analysis) (a : Analysis),
      (analyze_record h a).2 = a ∧
      (a.confidence = 60 → (analyze_record h a).1 = h) ∧
      (a.confidence = 61 → (analyze_record h a).1 = h ++ [a]) ∧
      ((analyze_record h a).1 = h ++ [a] ↔ 60 < a.confidence) := by
  intro h a
  unfold analyze_record
  by_cases hc : 60 < a.confidence
  · rw [if_pos hc]
    refine ⟨rfl, ?_, fun _ => rfl, by simp [hc]⟩
    intro h60
    rw [h60] at hc
    exact absurd hc (by norm_num)
  · rw [if_neg hc]
    refine ⟨rfl, fun _ => rfl, ?_, ?_⟩
    · intro h61
      rw [h61] at hc
      exact absurd (by norm_num : (60:ℚ) < 61) hc
    · constructor
      · intro heq
        exact absurd (congrArg List.length heq) (by simp)
      · intro hgt
        exact absurd hgt hc

/-- Witness for C7: with an empty history, a confidence-60 analysis is
not appended and a confidence-61 analysis is, and both are returned. -/
theorem analyze_record_strict_admission_at_60_61 :
    (analyze_record [] ⟨"EURUSD", TDir.buy, 60⟩).1 = [] ∧
      (analyze_record [] ⟨"EURUSD", TDir.buy, 61⟩).1 =
        [⟨"EURUSD", TDir.buy, 61⟩] ∧
      (analyze_record [] ⟨"EURUSD", TDir.buy, 60⟩).2 = ⟨"EURUSD", TDir.buy, 60⟩ :=
  ⟨(analyze_record_strict_admission [] ⟨"EURUSD", TDir.buy, 60⟩).2.1 rfl,
   (analyze_record_strict_admission [] ⟨"EURUSD", TDir.buy, 61⟩).2.2.1 rfl,
   (analyze_record_strict_admission [] ⟨"EURUSD", TDir.buy, 60⟩).1⟩

/-- Claim C9: `get_signal_history` with `limit = 0` returns the entire
symbol-filtered history (because `history[-0:]` is the whole list); with
`limit > 0` it returns the most recent `min limit length` filtered
entries in insertion order (a suffix of the filtered history); and an
empty filtered history yields `[]`. -/
theorem get_signal_history_limit_semantics :
    ∀ (hist : List Analysis) (symbol : Option String) (limit : ℕ),
      (get_signal_history hist symbol 0 = filtered_history hist symbol) ∧
      (0 < limit →
        (get_signal_history hist symbol limit).length =
          min limit (filtered_history hist symbol).length ∧
        (get_signal_history hist symbol limit).IsSuffix (filtered_history hist symbol)) ∧
      (filtered_history hist symbol = [] → get_signal_history hist symbol limit = []) := by
  intro hist symbol limit
  unfold get_signal_history pySliceLast
  refine ⟨?_, ?_, ?_⟩
  · by_cases he : (filtered_history hist symbol).isEmpty
    · rw [if_pos he]
      rw [List.isEmpty_iff] at he
      rw [he]
    · rw [if_neg he, if_pos rfl]
  · intro hpos
    have hl0 : limit ≠ 0 := by omega
    by_cases he : (filtered_history hist symbol).isEmpty
    · rw [if_pos he]
      rw [List.isEmpty_iff] at he
      rw [he]
      constructor
      · simp
      · exact List.nil_suffix
    · rw [if_neg he, if_neg hl0]
      constructor
      · rw [List.length_drop]
        omega
      · exact List.drop_suffix _ _
  · intro hnil
    rw [hnil]
    simp

/-- Witness for C9 on the spec's §8 scenario: history = [EURUSD@65,
GBPUSD@80, EURUSD@90], `get_signal_history("EURUSD", 1)` returns exactly
the single most recent EURUSD entry, as forced by the length/suffix
facts obtained from the theorem at limit 1. -/
theorem get_signal_history_limit_semantics_scenario :
    (get_signal_history
        [⟨"EURUSD", TDir.buy, 65⟩, ⟨"GBPUSD", TDir.buy, 80⟩, ⟨"EURUSD", TDir.buy, 90⟩]
        (some "EURUSD") 1).length =
      min 1 (filtered_history
        [⟨"EURUSD", TDir.buy, 65⟩, ⟨"GBPUSD", TDir.buy, 80⟩, ⟨"EURUSD", TDir.buy, 90⟩]
        (some "EURUSD")).length ∧
    (get_signal_history
        [⟨"EURUSD", TDir.buy, 65⟩, ⟨"GBPUSD", TDir.buy, 80⟩, ⟨"EURUSD", TDir.buy, 90⟩]
        (some "EURUSD") 1).IsSuffix (filtered_history
        [⟨"EURUSD", TDir.buy, 65⟩, ⟨"GBPUSD", TDir.buy, 80⟩, ⟨"EURUSD", TDir.buy, 90⟩]
        (some "EURUSD")) :=
  (get_signal_history_limit_semantics
    [⟨"EURUSD", TDir.buy, 65⟩, ⟨"GBPUSD", TDir.buy, 80⟩, ⟨"EURUSD", TDir.buy, 90⟩]
    (some "EURUSD") 1).2.1 (by norm_num)

/-- In a sorted list, values at earlier positions are no larger. -/
theorem getD_mono_of_sorted (s : List ℚ) (hs : s.Sorted (· ≤ ·)) (i j : ℕ)
    (hij : i ≤ j) (hj : j < s.length) (d d' : ℚ) : s.getD i d ≤ s.getD j d' := by
  have hi : i < s.length := lt_of_le_of_lt hij hj
  rw [List.getD_eq_get _ _ hi, List.getD_eq_get _ _ hj]
  exact hs.rel_get_of_le (Fin.mk_le_mk.mpr hij)

/-- The interpolated value anchored at `lo` is at most the sorted list's
value at any position from `lo+1` on, for an interpolation weight in
[0, 1]. -/
theorem interp_le_of_le (s : List ℚ) (hs : s.Sorted (· ≤ ·)) (lo m : ℕ) (t : ℚ)
    (h0 : 0 ≤ t) (h1 : t ≤ 1) (hlom : lo + 1 ≤ m) (hm : m < s.length) :
    s.getD lo 0 + t * (s.getD (lo + 1) (s.getD lo 0) - s.getD lo 0) ≤ s.getD m 0 := by
  have hab : s.getD lo 0 ≤ s.getD (lo + 1) (s.getD lo 0) :=
    getD_mono_of_sorted s hs lo (lo + 1) (by omega) (by omega) 0 _
  have hbm : s.getD (lo + 1) (s.getD lo 0) ≤ s.getD m 0 :=
    getD_mono_of_sorted s hs (lo + 1) m hlom hm _ 0
  nlinarith

/-- The interpolated value anchored at `lo` is at least the sorted
list's value at any position up to `lo`, for a nonnegative weight. -/
theorem le_interp_of_le (s : List ℚ) (hs : s.Sorted (· ≤ ·)) (lo m : ℕ) (t : ℚ)
    (_h0 : 0 ≤ t) (hm : m ≤ lo) (hlo : lo < s.length) :
    s.getD m 0 ≤ s.getD lo 0 + t * (s.getD (lo + 1) (s.getD lo 0) - s.getD lo 0) := by
  have hma : s.getD m 0 ≤ s.getD lo 0 := getD_mono_of_sorted s hs m lo hm hlo 0 0
  have hba : 0 ≤ s.getD (lo + 1) (s.getD lo 0) - s.getD lo 0 := by
    by_cases h : lo + 1 < s.length
    · have := getD_mono_of_sorted s hs lo (lo + 1) (by omega) h 0 (s.getD lo 0)
      linarith
    · rw [List.getD_eq_default _ _ (by omega)]
      simp
  nlinarith

/-- The 5th percentile of a sorted list of more than 10 values is at
most the list's middle value. -/
theorem quantileSorted_low_le (s : List ℚ) (hs : s.Sorted (· ≤ ·))
    (hn : 11 ≤ s.length) :
    quantileSorted s (1/20) ≤ s.getD (s.length / 2) 0 := by
  have hne : ¬ s.length = 0 := by omega
  have hnQ : (11:ℚ) ≤ (s.length : ℚ) := by exact_mod_cast hn
  unfold quantileSorted
  rw [if_neg hne]
  set hq : ℚ := 1/20 * ((s.length : ℚ) - 1) with hhq
  set lo : ℕ := hq.floor.toNat with hlod
  have hq0 : (0:ℚ) ≤ hq := by rw [hhq]; linarith
  have hfl0 : 0 ≤ hq.floor := Int.floor_nonneg.mpr hq0
  have hcast : (lo : ℚ) = (hq.floor : ℚ) := by
    rw [hlod]; exact_mod_cast Int.toNat_of_nonneg hfl0
  have hlo_le : (lo : ℚ) ≤ hq := by rw [hcast]; exact Int.floor_le hq
  have hlt1 : hq < (lo : ℚ) + 1 := by rw [hcast]; exact Int.lt_floor_add_one hq
  have hm2 : (s.length : ℚ) - 1 ≤ 2 * ((s.length / 2 : ℕ) : ℚ) := by
    have h2m : s.length - 1 ≤ 2 * (s.length / 2) := by omega
    calc (s.length : ℚ) - 1 = ((s.length - 1 : ℕ) : ℚ) := by
          rw [Nat.cast_sub (by omega : 1 ≤ s.length)]
          norm_num
      _ ≤ ((2 * (s.length / 2) : ℕ) : ℚ) := by exact_mod_cast h2m
      _ = 2 * ((s.length / 2 : ℕ) : ℚ) := by push_cast; ring
  have hlom : lo + 1 ≤ s.length / 2 := by
    have h1 : (lo : ℚ) < ((s.length / 2 : ℕ) : ℚ) := by
      rw [hhq] at hlo_le
      linarith
    have h2 : lo < s.length / 2 := by exact_mod_cast h1
    omega
  exact interp_le_of_le s hs lo (s.length / 2) (hq - (lo : ℚ))
    (by linarith) (by linarith) hlom (by omega)

/-- The middle value of a sorted list of more than 10 values is at most
the list's 95th percentile. -/
theorem mid_le_quantileSorted_high (s : List ℚ) (hs : s.Sorted (· ≤ ·))
    (hn : 11 ≤ s.length) :
    s.getD (s.length / 2) 0 ≤ quantileSorted s (19/20) := by
  have hne : ¬ s.length = 0 := by omega
  have hnQ : (11:ℚ) ≤ (s.length : ℚ) := by exact_mod_cast hn
  unfold quantileSorted
  rw [if_neg hne]
  set hq : ℚ := 19/20 * ((s.length : ℚ) - 1) with hhq
  set lo : ℕ := hq.floor.toNat with hlod
  have hq0 : (0:ℚ) ≤ hq := by rw [hhq]; linarith
  have hfl0 : 0 ≤ hq.floor := Int.floor_nonneg.mpr hq0
  have hcast : (lo : ℚ) = (hq.floor : ℚ) := by
    rw [hlod]; exact_mod_cast Int.toNat_of_nonneg hfl0
  have hlo_le : (lo : ℚ) ≤ hq := by rw [hcast]; exact Int.floor_le hq
  have hlt1 : hq < (lo : ℚ) + 1 := by rw [hcast]; exact Int.lt_floor_add_one hq
  have hm2 : 2 * ((s.length / 2 : ℕ) : ℚ) ≤ (s.length : ℚ) := by
    have h2m : 2 * (s.length / 2) ≤ s.length := by omega
    calc 2 * ((s.length / 2 : ℕ) : ℚ) = ((2 * (s.length / 2) : ℕ) : ℚ) := by
          push_cast; ring
      _ ≤ (s.length : ℚ) := by exact_mod_cast h2m
  have hmlo : s.length / 2 ≤ lo := by
    have h1 : ((s.length / 2 : ℕ) : ℚ) < (lo : ℚ) + 1 := by
      rw [hhq] at hlt1
      linarith
    have h2 : s.length / 2 < lo + 1 := by exact_mod_cast h1
    omega
  have hlon : lo < s.length := by
    have h1 : (lo : ℚ) < (s.length : ℚ) := by
      rw [hhq] at hlo_le
      linarith
    exact_mod_cast h1
  exact le_interp_of_le s hs lo (s.length / 2) (hq - (lo : ℚ))
    (by linarith) hmlo hlon

/-- Any list of more than 10 values has a member lying between its 5th
and 95th percentiles (the middle element of its sorted copy). -/
theorem exists_mem_between_quantiles (l : List ℚ) (hlen : 10 < l.length) :
    ∃ v ∈ l, quantileQ l (1/20) ≤ v ∧ v ≤ quantileQ l (19/20) := by
  have hperm : List.Perm (List.insertionSort (· ≤ ·) l) l := List.perm_insertionSort _ l
  have hsort : (List.insertionSort (· ≤ ·) l).Sorted (· ≤ ·) :=
    List.sorted_insertionSort _ l
  have hslen : (List.insertionSort (· ≤ ·) l).length = l.length := hperm.length_eq
  have hn : 11 ≤ (List.insertionSort (· ≤ ·) l).length := by omega
  refine ⟨(List.insertionSort (· ≤ ·) l).getD
    ((List.insertionSort (· ≤ ·) l).length / 2) 0, ?_, ?_, ?_⟩
  · have hmem : (List.insertionSort (· ≤ ·) l).getD
        ((List.insertionSort (· ≤ ·) l).length / 2) 0 ∈ List.insertionSort (· ≤ ·) l := by
      rw [List.getD_eq_get _ _ (by omega)]
      exact List.get_mem ..
    exact hperm.mem_iff.mp hmem
  · exact quantileSorted_low_le _ hsort hn
  · exact mid_le_quantileSorted_high _ hsort hn

/-- Each filtering pass only drops rows, never adds or edits them. -/
theorem mem_of_mem_clean_filter_col (col : Candle → ℚ) (rows : List Candle)
    (c : Candle) (hc : c ∈ _clean_filter_col col rows) : c ∈ rows := by
  unfold _clean_filter_col at hc
  by_cases h : 10 < rows.length
  · rw [if_pos h] at hc
    exact (List.mem_filter.mp hc).1
  · rw [if_neg h] at hc
    exact hc

/-- Each filtering pass keeps at least one row: either it is skipped
(at most 10 rows) or the row carrying the column's middle value survives
the inclusive `[Q1 - 3*IQR, Q3 + 3*IQR]` bounds. -/
theorem clean_filter_col_ne_nil (col : Candle → ℚ) (rows : List Candle)
    (hne : rows ≠ []) : _clean_filter_col col rows ≠ [] := by
  unfold _clean_filter_col
  by_cases h : 10 < rows.length
  · rw [if_pos h]
    have hmaplen : 10 < (rows.map col).length := by
      rw [List.length_map]; exact h
    obtain ⟨v, hv, hq1, hq3⟩ := exists_mem_between_quantiles (rows.map col) hmaplen
    rw [List.mem_map] at hv
    obtain ⟨r, hr, rfl⟩ := hv
    apply List.ne_nil_of_mem (a := r)
    rw [List.mem_filter]
    refine ⟨hr, ?_⟩
    rw [Bool.and_eq_true, decide_eq_true_eq, decide_eq_true_eq]
    constructor
    · linarith
    · linarith
  · rw [if_neg h]
    exact hne

/-- `_clean_data` keeps at least one row of a nonempty input. -/
theorem clean_data_ne_nil (rows : List Candle) (hne : rows ≠ []) :
    _clean_data rows ≠ [] := by
  unfold _clean_data
  apply clean_filter_col_ne_nil
  apply clean_filter_col_ne_nil
  apply clean_filter_col_ne_nil
  apply clean_filter_col_ne_nil
  exact hne

/-- Every row surviving `_clean_data` is a row of the input. -/
theorem mem_of_mem_clean_data (rows : List Candle) (c : Candle)
    (hc : c ∈ _clean_data rows) : c ∈ rows := by
  unfold _clean_data at hc
  exact mem_of_mem_clean_filter_col _ _ _
    (mem_of_mem_clean_filter_col _ _ _
      (mem_of_mem_clean_filter_col _ _ _
        (mem_of_mem_clean_filter_col _ _ _ hc)))

/-- Every candle the loop constructs satisfies the enforced OHLC
envelope. -/
theorem mk_candle_ohlc (now : ℤ) (sinQ : ℚ → ℚ) (i : ℕ) (price g1 g2 g3 u : ℚ) :
    (mk_candle now sinQ i price g1 g2 g3 u).Low ≤
        min (mk_candle now sinQ i price g1 g2 g3 u).Open
          (mk_candle now sinQ i price g1 g2 g3 u).Close ∧
      max (mk_candle now sinQ i price g1 g2 g3 u).Open
          (mk_candle now sinQ i price g1 g2 g3 u).Close ≤
        (mk_candle now sinQ i price g1 g2 g3 u).High := by
  simp only [mk_candle]
  constructor
  · apply le_min
    · exact min_le_left _ _
    · exact le_trans (min_le_right _ _) (min_le_left _ _)
  · apply max_le
    · exact le_max_left _ _
    · exact le_trans (le_max_left _ _) (le_max_right _ _)

/-- The loop yields exactly `count` candles. -/
theorem gen_candles_length (rng : Rng) (sinQ : ℚ → ℚ) (base : ℚ)
    (returns : List ℚ) (now : ℤ) :
    ∀ (count i st : ℕ),
      (gen_candles rng sinQ base returns now i st count).length = count := by
  intro count
  induction count with
  | zero => intro i st; rfl
  | succ n ih =>
    intro i st
    unfold gen_candles
    rw [List.length_cons, ih]

/-- Every candle the loop yields is built by `mk_candle`. -/
theorem gen_candles_mem (rng : Rng) (sinQ : ℚ → ℚ) (base : ℚ)
    (returns : List ℚ) (now : ℤ) :
    ∀ (count i st : ℕ) (c : Candle),
      c ∈ gen_candles rng sinQ base returns now i st count →
      ∃ (j : ℕ) (p a b d u : ℚ), c = mk_candle now sinQ j p a b d u := by
  intro count
  induction count with
  | zero => intro i st c hc; exact absurd hc (List.not_mem_nil c)
  | succ n ih =>
    intro i st c hc
    unfold gen_candles at hc
    rcases List.mem_cons.mp hc with h | h
    · exact ⟨i, _, _, _, _, _, h⟩
    · exact ih _ _ c h

/-- Claim C4: whatever the RNG stream, hash and sine oracle, the
synthetic fallback series `_get_dynamic_default_data` is non-empty after
cleaning, and every one of its candles satisfies the OHLC ordering
invariant `Low ≤ min(Open, Close)` and `max(Open, Close) ≤ High`. -/
theorem synthetic_fallback_nonempty_ohlc :
    ∀ (rng : Rng) (pyHash : String → ℕ) (sinQ : ℚ → ℚ) (ambient : ℕ)
      (symbol : String) (now : ℤ),
      _get_dynamic_default_data rng pyHash sinQ ambient symbol now ≠ [] ∧
      ∀ c ∈ _get_dynamic_default_data rng pyHash sinQ ambient symbol now,
        c.Low ≤ min c.Open c.Close ∧ max c.Open c.Close ≤ c.High := by
  intro rng pyHash sinQ ambient symbol now
  constructor
  · unfold _get_dynamic_default_data
    apply clean_data_ne_nil
    intro hnil
    have := gen_candles_length rng sinQ (base_prices symbol)
      ((draw_list rng (rng.seed (pyHash symbol % 10000)) 500).1.map
        (fun g => 1/10000 + 1/200 * g)) now 500 0
      (draw_list rng (rng.seed (pyHash symbol % 10000)) 500).2
    rw [hnil] at this
    exact absurd this.symm (by norm_num)
  · intro c hc
    unfold _get_dynamic_default_data at hc
    have hmem := mem_of_mem_clean_data _ _ hc
    obtain ⟨j, p, a, b, d, u, rfl⟩ := gen_candles_mem _ _ _ _ _ _ _ _ _ hmem
    exact mk_candle_ohlc now sinQ j p a b d u

/-- Claim C8: the synthetic series is a function of the symbol and the
current time only — `np.random.seed(hash(symbol) % 10000)` runs before
any draw, so the ambient RNG state the process happened to carry is
discarded and two calls with the same symbol and the same current time
return identical series. -/
theorem synthetic_series_deterministic :
    ∀ (rng : Rng) (pyHash : String → ℕ) (sinQ : ℚ → ℚ) (ambient1 ambient2 : ℕ)
      (symbol : String) (now : ℤ),
      _get_dynamic_default_data rng pyHash sinQ ambient1 symbol now =
        _get_dynamic_default_data rng pyHash sinQ ambient2 symbol now := by
  intro rng pyHash sinQ ambient1 ambient2 symbol now
  rfl

/-- Claim C1 (counterexample to the claim as stated): with no healthy
source and an empty cache, `get_symbol_data` returns the raw synthetic
series — the available indicator engine is NOT applied and NOTHING is
cached under the key, unlike the all-adapters-failed path. -/
theorem no_healthy_path_skips_indicators_and_cache :
    (get_symbol_data unhealthyProvider emptyCache 1000 "EURUSD" "3mo" "4h").1 =
        some [⟨0, 1, 1, 1, 1, 1⟩] ∧
      (get_symbol_data unhealthyProvider emptyCache 1000 "EURUSD" "3mo" "4h").1 ≠
        some (unhealthyProvider.add_technical_indicators [⟨0, 1, 1, 1, 1, 1⟩]) ∧
      (get_symbol_data unhealthyProvider emptyCache 1000 "EURUSD" "3mo" "4h").2
          (cacheKey "EURUSD" "3mo" "4h") = none := by
  refine ⟨rfl, ?_, rfl⟩
  intro h
  have := Option.some.inj h
  have hlen := congrArg List.length this
  simp [unhealthyProvider] at hlen

/-- Claim C1 (amended): when the health map marks no source healthy (and
the cache has no fresh entry), `get_symbol_data` returns whatever the
Synthetic Series Generator produced, directly — without attaching
indicators and without caching; it is the all-adapters-failed path (some
source healthy, every fetch failed) that attaches indicators when
available and caches the synthetic result under the call's key. -/
theorem no_healthy_returns_raw_synthetic_uncached
    (p : Provider) (cache : Cache) (now : ℕ) (symbol period interval : String)
    (hmiss : cache (cacheKey symbol period interval) = none)
    (hnone : p.data_sources.filter p.source_status = []) :
    get_symbol_data p cache now symbol period interval =
      (p.dynamicDefault symbol, cache) := by
  unfold get_symbol_data
  rw [hmiss]
  unfold get_symbol_data.get_symbol_data_fetch
  rw [hnone]
  rfl

/-- Witness for C1 (amended) on the concrete unhealthy provider: the
call returns the raw one-candle synthetic series and leaves the cache
untouched. -/
theorem no_healthy_returns_raw_synthetic_uncached_concrete :
    get_symbol_data unhealthyProvider emptyCache 1000 "EURUSD" "3mo" "4h" =
      (unhealthyProvider.dynamicDefault "EURUSD", emptyCache) :=
  no_healthy_returns_raw_synthetic_uncached unhealthyProvider emptyCache 1000
    "EURUSD" "3mo" "4h" rfl rfl

/-- Claim C2 (the `timedelta.seconds` slip, demonstrating the failing
input): the cache entry for the key was stored at second 0 and the
second call arrives at second 86400 — exactly one day later, an age far
beyond the 600-second cache timeout — yet `get_symbol_data` serves the
stale entry from the cache: the healthy first adapter stands ready with
a *different* non-empty series (third conjunct), so the fetch path would
have returned that series with the indicator marker attached and
re-stamped the key at second 86400; instead the call returns exactly the
stored stale series (second conjunct), not the indicator-attached
adapter series (fourth conjunct), and leaves the entry's timestamp at 0
(fifth conjunct).  This happens because `(datetime.now() -
cached_time).seconds` is the seconds *component* of the timedelta
(`86400 mod 86400 = 0 < 600`), not the total elapsed seconds; under
elapsed-seconds semantics the entry would be expired and every conjunct
about the cached series would fail. -/
theorem day_old_cache_entry_served_as_fresh :
    86400 - 0 ≥ staleServingProvider.cache_timeout ∧
      (get_symbol_data staleServingProvider dayOldCache 86400 "EURUSD" "3mo" "4h").1 =
        some [⟨0, 1, 1, 1, 1, 1⟩] ∧
      tryWorkingSources staleServingProvider
        (staleServingProvider.data_sources.filter staleServingProvider.source_status)
        "EURUSD" "3mo" "4h" = some [⟨7, 2, 2, 2, 2, 2⟩] ∧
      (get_symbol_data staleServingProvider dayOldCache 86400 "EURUSD" "3mo" "4h").1 ≠
        some (staleServingProvider.add_technical_indicators [⟨7, 2, 2, 2, 2, 2⟩]) ∧
      (get_symbol_data staleServingProvider dayOldCache 86400 "EURUSD" "3mo" "4h").2
          (cacheKey "EURUSD" "3mo" "4h") = some (0, [⟨0, 1, 1, 1, 1, 1⟩]) := by
  refine ⟨by norm_num [staleServingProvider], rfl, rfl, ?_, rfl⟩
  intro h
  rw [show (get_symbol_data staleServingProvider dayOldCache 86400
      "EURUSD" "3mo" "4h").1 = some [⟨0, 1, 1, 1, 1, 1⟩] from rfl] at h
  have heq := Option.some.inj h
  have hlen := congrArg List.length heq
  simp [staleServingProvider] at hlen
